import Mathlib

/-!
# Verification of the full-time BT monitor pipeline (src/fulltime.py)

Shallow embedding of the pandas pipeline in `src/fulltime.py`:
filtering (Completed = "yes", Service Name = "Direct Service BT"),
date/units normalization, month-key derivation, per-(staff, month)
aggregation, pivoting over three selected months, and the PASS / NO PASS
classification at the 130-hour threshold.

Modelling conventions:
* A table cell that pandas' `astype(str)` will see is a `Cell`: either a
  string or NaN (a missing value); `astype(str)` renders NaN as `"nan"`.
* `pd.to_datetime(col, errors="coerce")` (line 62) and
  `pd.to_numeric(col, errors="coerce")` (line 65) call external parsers,
  so a row carries the parse results directly: `date : Option Date`
  (`none` = NaT, i.e. the raw date field was unparseable) and
  `units : Option ℚ` (`none` = NaN, i.e. the raw quantity was missing or
  non-numeric).  Numeric quantities are modelled as exact rationals.
* Row order of pandas groupby/pivot output is sorted by key; the list
  embedding keeps first-occurrence order for group keys (the multiset of
  rows, the cell values and the column order are what the claims are
  about, and those are preserved exactly); pivot columns follow the
  sorted selected-month list as in line 119 of the source.
-/

namespace BTFT

/-- A raw table cell as seen by `astype(str)`: a string or a missing value. -/
inductive Cell where
  | str : String → Cell
  | nan : Cell
deriving DecidableEq, Repr

/-- `astype(str)` (lines 50 and 56): NaN renders as the string "nan". -/
def cellToStr : Cell → String
  | .str s => s
  | .nan => "nan"

/-- Executable model of pandas `.str.strip()`: drop leading and trailing
whitespace characters. -/
def strTrim (s : String) : String :=
  ⟨((s.data.dropWhile Char.isWhitespace).reverse.dropWhile Char.isWhitespace).reverse⟩

/-- Executable model of pandas `.str.lower()` (ASCII case mapping, which
covers every string the pipeline compares against). -/
def strLower (s : String) : String := ⟨s.data.map Char.toLower⟩

/-- A parsed calendar date (only year and month are used downstream). -/
structure Date where
  year : Nat
  month : Nat
deriving DecidableEq, Repr

/-- One raw appointment row, after the external parsers have run:
`date` is the result of `pd.to_datetime(..., errors="coerce")` (line 62,
`none` = NaT) and `units` the result of
`pd.to_numeric(..., errors="coerce")` (line 65, `none` = NaN). -/
structure Row where
  staff : String
  date : Option Date
  units : Option ℚ
  completed : Cell
  service : Cell
deriving DecidableEq, Repr

/-- Required column names (lines 34-40). -/
def requiredCols : List String :=
  ["Staff Name", "Appt. Date", "Units", "Completed", "Service Name"]

/-- Lines 50-51: normalize the completion flag (strip + lowercase) and keep
only rows equal to "yes". -/
def completedFilter (rows : List Row) : List Row :=
  rows.filter (fun r => strLower (strTrim (cellToStr r.completed)) == "yes")

/-- Lines 56-57: strip the service name and keep only "Direct Service BT". -/
def serviceFilter (rows : List Row) : List Row :=
  rows.filter (fun r => strTrim (cellToStr r.service) == "Direct Service BT")

/-- Lines 65-68: `fillna(0)` on the coerced units, then Hours = Units / 4. -/
def rowHours (r : Row) : ℚ := r.units.getD 0 / 4

/-- The decimal digit character for `d` (0-9). -/
def dChar (d : Nat) : Char := Char.ofNat (48 + d)

/-- A number rendered as two zero-padded decimal digits. -/
def pad2 (n : Nat) : List Char := [dChar (n / 10 % 10), dChar (n % 10)]

/-- A number rendered as four zero-padded decimal digits. -/
def pad4 (n : Nat) : List Char :=
  [dChar (n / 1000 % 10), dChar (n / 100 % 10), dChar (n / 10 % 10), dChar (n % 10)]

/-- Line 70: `dt.to_period("M").astype(str)`, i.e. the "YYYY-MM" month key
of a parsed date. -/
def monthKey (y m : Nat) : String := ⟨pad4 y ++ '-' :: pad2 m⟩

/-- A normalized qualifying row: staff name, month key, resolved hours. -/
structure NRow where
  staff : String
  ym : String
  hours : ℚ
deriving DecidableEq, Repr

/-- Lines 50-70: the two qualification filters, then `dropna` on the coerced
date (line 63) and derivation of Hours (line 68) and YearMonth (line 70). -/
def normalize (rows : List Row) : List NRow :=
  (serviceFilter (completedFilter rows)).filterMap (fun r =>
    match r.date with
    | some d => some ⟨r.staff, monthKey d.year d.month, rowHours r⟩
    | none => none)

/-- Total hours of the rows of one (staff, month) group. -/
def groupTotal (nrows : List NRow) (s m : String) : ℚ :=
  ((nrows.filter (fun r => decide (r.staff = s ∧ r.ym = m))).map NRow.hours).sum

/-- Lines 75-78: `groupby([Staff, YearMonth]).sum()` — one output row per
distinct (staff, month) pair, carrying the summed hours. -/
def monthlyHours (nrows : List NRow) : List NRow :=
  ((nrows.map (fun r => (r.staff, r.ym))).dedup).map
    (fun p => ⟨p.1, p.2, groupTotal nrows p.1 p.2⟩)

/-- Lexicographic comparison of character lists by Unicode code point,
the order Python's `sorted` uses on the month-key strings. -/
def charListLt : List Char → List Char → Bool
  | [], [] => false
  | [], _ :: _ => true
  | _ :: _, [] => false
  | a :: as, b :: bs => if a < b then true else if b < a then false else charListLt as bs

/-- Lexicographic strict order on strings (shown below to agree with the
standard string order). -/
def strLt (s t : String) : Bool := charListLt s.data t.data

/-- Lexicographic weak order on strings. -/
def strLe (s t : String) : Bool := ! strLt t s

/-- The weak order as a relation, for sorting. -/
def sle (a b : String) : Prop := strLe a b = true

instance sleDecidable : DecidableRel sle := fun a b =>
  inferInstanceAs (Decidable (strLe a b = true))

/-- Sorting a list of month keys ascending (lines 83 and 97). -/
def sortStr (l : List String) : List String := l.insertionSort sle

/-- One pivoted output row: the staff name followed by one hours value per
selected month, aligned with the sorted selected-month list (line 119). -/
structure PivotRow where
  staff : String
  vals : List ℚ
deriving DecidableEq, Repr

/-- Lines 102-119: restrict the monthly totals to the selected months,
pivot to one row per staff with one column per selected month
(`aggfunc="sum"`, `fill_value=0`, missing month columns added as 0 by
lines 115-117), columns ordered `[Staff] + selected_months` (line 119). -/
def pivotTable (mh : List NRow) (sel : List String) : List PivotRow :=
  let filtered := mh.filter (fun r => decide (r.ym ∈ sel))
  let staffs := (filtered.map NRow.staff).dedup
  staffs.map (fun s => ⟨s, sel.map (fun m => groupTotal filtered s m)⟩)

/-- Line 124: `(pivot[selected_months] > 130).all(axis=1)`. -/
def passRow (p : PivotRow) : Bool := p.vals.all (fun v => decide ((130 : ℚ) < v))

/-- Lines 126-127: the PASS partition. -/
def passTable (mh : List NRow) (sel : List String) : List PivotRow :=
  (pivotTable mh sel).filter passRow

/-- Lines 129-130: the NO PASS partition. -/
def noPassTable (mh : List NRow) (sel : List String) : List PivotRow :=
  (pivotTable mh sel).filter (fun p => ! passRow p)

/-- The two fatal rejections of the script: missing required columns
(lines 43-45) and a selected-month count other than 3 (lines 93-95). -/
inductive PipelineError where
  | schemaError (missing : List String)
  | selectionError
deriving DecidableEq, Repr

/-- Lines 40-130 end to end: schema check, filtering/normalization,
aggregation, month-count check, sort of the selection (line 97), pivot and
classification.  `st.stop()` on a failed check is modelled as an error
result carrying no output. -/
def pipeline (cols : List String) (rows : List Row) (sel : List String) :
    Except PipelineError (List PivotRow × List PivotRow) :=
  let missing := requiredCols.filter (fun c => ! decide (c ∈ cols))
  if missing.isEmpty then
    if sel.length = 3 then
      let mh := monthlyHours (normalize rows)
      let ssel := sortStr sel
      .ok (passTable mh ssel, noPassTable mh ssel)
    else
      .error .selectionError
  else
    .error (.schemaError missing)

/-!
## Helper lemmas
-/

/-- If every required column is present, the missing-column list is empty. -/
theorem requiredFilter_nil {cols : List String} (hcols : ∀ c ∈ requiredCols, c ∈ cols) :
    requiredCols.filter (fun c => ! decide (c ∈ cols)) = [] := by
  rw [List.filter_eq_nil_iff]
  intro c hc
  simp [hcols c hc]

/-- How `normalize` treats the first row of the table: it survives iff it
passes both qualification filters and its date parsed, in which case it
contributes exactly one normalized row. -/
theorem normalize_cons (x : Row) (rest : List Row) :
    normalize (x :: rest) =
      (if strLower (strTrim (cellToStr x.completed)) = "yes"
          ∧ strTrim (cellToStr x.service) = "Direct Service BT" then
        match x.date with
        | some d => [NRow.mk x.staff (monthKey d.year d.month) (rowHours x)]
        | none => []
      else []) ++ normalize rest := by
  by_cases h1 : strLower (strTrim (cellToStr x.completed)) = "yes" <;>
    by_cases h2 : strTrim (cellToStr x.service) = "Direct Service BT" <;>
    cases hd : x.date <;>
    simp [normalize, completedFilter, serviceFilter, List.filter_cons, h1, h2, hd]

/-- Membership in the pivot-derived PASS partition. -/
theorem mem_passTable {mh : List NRow} {sel : List String} {p : PivotRow} :
    p ∈ passTable mh sel ↔ p ∈ pivotTable mh sel ∧ passRow p = true := by
  simp [passTable, List.mem_filter]

/-- Membership in the pivot-derived NO PASS partition. -/
theorem mem_noPassTable {mh : List NRow} {sel : List String} {p : PivotRow} :
    p ∈ noPassTable mh sel ↔ p ∈ pivotTable mh sel ∧ passRow p = false := by
  simp [noPassTable, List.mem_filter]

/-- Every normalized row's hours value is the resolved hours of some input
row. -/
theorem normalize_hours_src {rows : List Row} {x : NRow} (hx : x ∈ normalize rows) :
    ∃ r ∈ rows, x.hours = rowHours r := by
  rw [normalize] at hx
  rcases List.mem_filterMap.mp hx with ⟨r, hr, hf⟩
  have hr2 : r ∈ completedFilter rows := (List.mem_filter.mp hr).1
  have hr3 : r ∈ rows := (List.mem_filter.mp hr2).1
  refine ⟨r, hr3, ?_⟩
  cases hd : r.date with
  | none => rw [hd] at hf; simp at hf
  | some d =>
    rw [hd] at hf
    simp only [Option.some.injEq] at hf
    rw [← hf]

/-- Resolved hours are nonnegative as soon as the parsed unit count is. -/
theorem rowHours_nonneg {r : Row} (h : ∀ u, r.units = some u → 0 ≤ u) :
    0 ≤ rowHours r := by
  rw [rowHours]
  cases hu : r.units with
  | none => norm_num
  | some u => simpa using div_nonneg (h u hu) (by norm_num)

/-- A group total over rows with nonnegative hours is nonnegative. -/
theorem groupTotal_nonneg {l : List NRow} (h : ∀ x ∈ l, 0 ≤ x.hours) (s m : String) :
    0 ≤ groupTotal l s m := by
  rw [groupTotal]
  apply List.sum_nonneg
  intro v hv
  rcases List.mem_map.mp hv with ⟨x, hx, rfl⟩
  exact h x (List.mem_filter.mp hx).1

/-- Aggregation preserves nonnegativity of the hours column. -/
theorem monthlyHours_nonneg {nr : List NRow} (h : ∀ x ∈ nr, 0 ≤ x.hours) :
    ∀ x ∈ monthlyHours nr, 0 ≤ x.hours := by
  intro x hx
  rw [monthlyHours] at hx
  rcases List.mem_map.mp hx with ⟨p, hp, rfl⟩
  exact groupTotal_nonneg h p.1 p.2

/-- Unfolding the lexicographic comparison one character at a time. -/
theorem charListLt_cons (a b : Char) (as bs : List Char) :
    charListLt (a :: as) (b :: bs) = true ↔ a < b ∨ (a = b ∧ charListLt as bs = true) := by
  rw [charListLt]
  rcases lt_trichotomy a b with h | h | h
  · simp [h]
  · subst h
    simp [lt_irrefl]
  · have h1 : ¬ a < b := lt_asymm h
    have h2 : ¬ a = b := by
      intro he
      exact absurd h (he ▸ lt_irrefl a)
    simp [h, h1, h2]

/-- The executable comparison agrees with lexicographic order on
character lists. -/
theorem lex_iff_charListLt :
    ∀ l₁ l₂ : List Char, List.Lex (· < ·) l₁ l₂ ↔ charListLt l₁ l₂ = true := by
  intro l₁
  induction l₁ with
  | nil =>
    intro l₂
    cases l₂ with
    | nil => exact iff_of_false (List.Lex.not_nil_right _ _) (by rw [charListLt]; simp)
    | cons b bs => exact iff_of_true List.Lex.nil rfl
  | cons a as ih =>
    intro l₂
    cases l₂ with
    | nil => exact iff_of_false (List.Lex.not_nil_right _ _) (by rw [charListLt]; simp)
    | cons b bs =>
      constructor
      · intro h
        cases h with
        | cons h => exact (charListLt_cons _ _ _ _).mpr (.inr ⟨rfl, (ih bs).mp h⟩)
        | rel h => exact (charListLt_cons _ _ _ _).mpr (.inl h)
      · intro h
        rcases (charListLt_cons a b as bs).mp h with hlt | ⟨he, htl⟩
        · exact List.Lex.rel hlt
        · subst he
          exact List.Lex.cons ((ih bs).mpr htl)

/-- The executable comparison agrees with the standard strict order on
strings. -/
theorem strLt_iff (s t : String) : strLt s t = true ↔ s < t := by
  rw [strLt, ← lex_iff_charListLt]
  rw [String.lt_iff_toList_lt]
  rfl

/-- The executable weak comparison agrees with the standard order. -/
theorem sle_iff (s t : String) : sle s t ↔ s ≤ t := by
  rw [sle, strLe]
  rw [Bool.not_eq_eq_eq_not, Bool.not_true, ← Bool.not_eq_true]
  rw [strLt_iff, not_lt]

instance sleTotal : IsTotal String sle :=
  ⟨fun a b => by rw [sle_iff, sle_iff]; exact le_total a b⟩

instance sleTrans : IsTrans String sle :=
  ⟨fun a b c hab hbc => by
    rw [sle_iff] at hab hbc ⊢
    exact le_trans hab hbc⟩

/-- Sorting the selection is a permutation of it. -/
theorem sortStr_perm (l : List String) : (sortStr l).Perm l :=
  List.perm_insertionSort sle l

/-- The sorted selection is ascending in the standard string order. -/
theorem sortStr_sorted (l : List String) : List.Sorted (· ≤ ·) (sortStr l) :=
  (List.sorted_insertionSort sle l).imp (fun hab => (sle_iff _ _).mp hab)

/-- Digit characters compare exactly as the digits do. -/
theorem dChar_lt_iff (a b : Nat) :
    (dChar (a % 10) < dChar (b % 10)) ↔ a % 10 < b % 10 := by
  have ha : a % 10 < 10 := Nat.mod_lt _ (by norm_num)
  have hb : b % 10 < 10 := Nat.mod_lt _ (by norm_num)
  set x := a % 10 with hx
  set y := b % 10 with hy
  interval_cases x <;> interval_cases y <;> decide

/-- Digit characters are equal exactly when the digits are. -/
theorem dChar_eq_iff (a b : Nat) :
    (dChar (a % 10) = dChar (b % 10)) ↔ a % 10 = b % 10 := by
  have ha : a % 10 < 10 := Nat.mod_lt _ (by norm_num)
  have hb : b % 10 < 10 := Nat.mod_lt _ (by norm_num)
  set x := a % 10 with hx
  set y := b % 10 with hy
  interval_cases x <;> interval_cases y <;> decide

/-- The aggregated table contains exactly the (staff, month) groups of the
normalized table, each carrying its group total. -/
theorem mem_monthlyHours {nr : List NRow} {x : NRow} :
    x ∈ monthlyHours nr ↔ ∃ r ∈ nr, x = ⟨r.staff, r.ym, groupTotal nr r.staff r.ym⟩ := by
  rw [monthlyHours]
  constructor
  · intro hx
    rcases List.mem_map.mp hx with ⟨p, hp, hpx⟩
    rcases List.mem_map.mp (List.mem_dedup.mp hp) with ⟨r, hr, hpr⟩
    exact ⟨r, hr, by rw [← hpx, ← hpr]⟩
  · rintro ⟨r, hr, rfl⟩
    exact List.mem_map.mpr
      ⟨(r.staff, r.ym), List.mem_dedup.mpr (List.mem_map.mpr ⟨r, hr, rfl⟩), rfl⟩

/-- Counting occurrences of a key in a duplicate-free list. -/
theorem countP_str_nodup {l : List String} (h : l.Nodup) (s : String) :
    l.countP (fun t => t == s) = if s ∈ l then 1 else 0 := by
  induction l with
  | nil => simp
  | cons a l ih =>
    rw [List.countP_cons]
    have hnd := List.nodup_cons.mp h
    by_cases ha : a = s
    · subst ha
      simp [hnd.1, ih hnd.2]
    · have ha2 : ¬ s = a := fun he => ha he.symm
      simp [ha, ha2, ih hnd.2, List.mem_cons]

/-- A group with no matching rows totals zero. -/
theorem groupTotal_eq_zero {l : List NRow} {s m : String}
    (h : ∀ r ∈ l, ¬ (r.staff = s ∧ r.ym = m)) : groupTotal l s m = 0 := by
  rw [groupTotal]
  have hnil : l.filter (fun r => decide (r.staff = s ∧ r.ym = m)) = [] := by
    rw [List.filter_eq_nil_iff]
    intro a ha
    simp [h a ha]
  rw [hnil]
  rfl

/-- Zipping a list with its image pairs each element with its image. -/
theorem zip_map_self {α β : Type} (f : α → β) (l : List α) :
    l.zip (l.map f) = l.map (fun a => (a, f a)) := by
  induction l with
  | nil => rfl
  | cons a l ih => simp [ih]

/-- Splitting a sum of rationals along a Boolean partition of the list. -/
theorem sum_map_filter_not {α : Type} (l : List α) (f : α → ℚ) (p : α → Bool) :
    ((l.filter p).map f).sum + ((l.filter (fun x => ! p x)).map f).sum = (l.map f).sum := by
  induction l with
  | nil => simp
  | cons a l ih =>
    by_cases h : p a = true
    · simp only [List.filter_cons, h, if_pos, Bool.not_true, Bool.false_eq_true, if_false,
        List.map_cons, List.sum_cons]
      rw [← ih]
      ring
    · rw [Bool.not_eq_true] at h
      simp only [List.filter_cons, h, Bool.false_eq_true, if_false, Bool.not_false, if_true,
        List.map_cons, List.sum_cons]
      rw [← ih]
      ring

/-- Distributing a list sum over pointwise addition. -/
theorem sum_map_add_q {α : Type} (l : List α) (f g : α → ℚ) :
    (l.map (fun x => f x + g x)).sum = (l.map f).sum + (l.map g).sum := by
  induction l with
  | nil => simp
  | cons a l ih =>
    simp only [List.map_cons, List.sum_cons, ih]
    ring

/-- Summing an indicator of a key over a duplicate-free list containing it. -/
theorem sum_ite_of_nodup {α : Type} [DecidableEq α] (c : ℚ) :
    ∀ (l : List α) (a : α), l.Nodup → a ∈ l →
      (l.map (fun x => if x = a then c else 0)).sum = c := by
  intro l
  induction l with
  | nil =>
    intro a _ ha
    cases ha
  | cons b l ih =>
    intro a hnd ha
    have hn := List.nodup_cons.mp hnd
    rcases List.mem_cons.mp ha with h | h
    · subst h
      rw [List.map_cons, List.sum_cons, if_pos rfl]
      have hz : (l.map (fun x => if x = a then c else 0)).sum = 0 := by
        apply List.sum_eq_zero
        intro v hv
        rcases List.mem_map.mp hv with ⟨x, hx, rfl⟩
        rw [if_neg]
        rintro rfl
        exact hn.1 hx
      rw [hz, add_zero]
    · rw [List.map_cons, List.sum_cons, if_neg, ih a hn.2 h, zero_add]
      rintro rfl
      exact hn.1 h

/-- Peeling the first row off a group total. -/
theorem groupTotal_cons (r : NRow) (rs : List NRow) (s m : String) :
    groupTotal (r :: rs) s m
      = (if (s, m) = (r.staff, r.ym) then r.hours else 0) + groupTotal rs s m := by
  rw [groupTotal, groupTotal, List.filter_cons]
  by_cases h : r.staff = s ∧ r.ym = m
  · rw [if_pos (by simp [h.1, h.2]), List.map_cons, List.sum_cons,
      if_pos (by rw [h.1, h.2])]
  · rw [if_neg (by simpa using h), if_neg, zero_add]
    intro he
    rw [Prod.mk.injEq] at he
    exact h ⟨he.1.symm, he.2.symm⟩

/-- Summing group totals over a duplicate-free list of key pairs covering
all rows recovers the total hours of the rows. -/
theorem sum_groupTotal_pairs :
    ∀ (rs : List NRow) (ps : List (String × String)), ps.Nodup →
      (∀ r ∈ rs, (r.staff, r.ym) ∈ ps) →
      (ps.map (fun p => groupTotal rs p.1 p.2)).sum = (rs.map NRow.hours).sum := by
  intro rs
  induction rs with
  | nil =>
    intro ps _ _
    rw [List.map_nil, List.sum_nil]
    apply List.sum_eq_zero
    intro v hv
    rcases List.mem_map.mp hv with ⟨p, hp, rfl⟩
    rfl
  | cons r rs ih =>
    intro ps hnd hcov
    have hmem : (r.staff, r.ym) ∈ ps := hcov r (List.mem_cons_self r rs)
    have hpt : ps.map (fun p => groupTotal (r :: rs) p.1 p.2)
        = ps.map (fun p =>
            (if p = (r.staff, r.ym) then r.hours else 0) + groupTotal rs p.1 p.2) := by
      apply List.map_congr_left
      intro p hp
      rw [groupTotal_cons, Prod.mk.eta]
    rw [hpt, sum_map_add_q, sum_ite_of_nodup r.hours ps (r.staff, r.ym) hnd hmem,
      ih ps hnd (fun x hx => hcov x (List.mem_cons_of_mem r hx)),
      List.map_cons, List.sum_cons]

/-- Summing group totals over a grid of duplicate-free staff and month lists
covering all rows recovers the total hours of the rows. -/
theorem sum_groupTotal_grid :
    ∀ (rs : List NRow) (ls ms : List String), ls.Nodup → ms.Nodup →
      (∀ r ∈ rs, r.staff ∈ ls ∧ r.ym ∈ ms) →
      (ls.map (fun s => (ms.map (fun m => groupTotal rs s m)).sum)).sum
        = (rs.map NRow.hours).sum := by
  intro rs
  induction rs with
  | nil =>
    intro ls ms _ _ _
    rw [List.map_nil, List.sum_nil]
    apply List.sum_eq_zero
    intro v hv
    rcases List.mem_map.mp hv with ⟨s, hs, rfl⟩
    apply List.sum_eq_zero
    intro w hw
    rcases List.mem_map.mp hw with ⟨m, hm, rfl⟩
    rfl
  | cons r rs ih =>
    intro ls ms hls hms hcov
    have hc := hcov r (List.mem_cons_self r rs)
    have hpt : ls.map (fun s => (ms.map (fun m => groupTotal (r :: rs) s m)).sum)
        = ls.map (fun s => (if s = r.staff then r.hours else 0)
            + (ms.map (fun m => groupTotal rs s m)).sum) := by
      apply List.map_congr_left
      intro s hs
      have hrow : ms.map (fun m => groupTotal (r :: rs) s m)
          = ms.map (fun m =>
              (if (s, m) = (r.staff, r.ym) then r.hours else 0) + groupTotal rs s m) := by
        apply List.map_congr_left
        intro m hm
        rw [groupTotal_cons]
      rw [hrow, sum_map_add_q]
      congr 1
      by_cases hsr : s = r.staff
      · rw [if_pos hsr]
        have hin : ms.map (fun m => if (s, m) = (r.staff, r.ym) then r.hours else 0)
            = ms.map (fun m => if m = r.ym then r.hours else 0) := by
          apply List.map_congr_left
          intro m hm
          by_cases h : m = r.ym
          · rw [if_pos (by rw [h, hsr]), if_pos h]
          · rw [if_neg, if_neg h]
            intro he
            rw [Prod.mk.injEq] at he
            exact h he.2
        rw [hin]
        exact sum_ite_of_nodup r.hours ms r.ym hms hc.2
      · rw [if_neg hsr]
        apply List.sum_eq_zero
        intro v hv
        rcases List.mem_map.mp hv with ⟨m, hm, rfl⟩
        rw [if_neg]
        intro he
        rw [Prod.mk.injEq] at he
        exact hsr he.1
    rw [hpt, sum_map_add_q, sum_ite_of_nodup r.hours ls r.staff hls hc.1,
      ih ls ms hls hms (fun x hx => hcov x (List.mem_cons_of_mem r hx)),
      List.map_cons, List.sum_cons]

/-- Restricting the rows to the months of interest does not change a group
total for a month of interest. -/
theorem groupTotal_filter (l : List NRow) (sel : List String) (s m : String)
    (hm : m ∈ sel) :
    groupTotal (l.filter (fun r => decide (r.ym ∈ sel))) s m = groupTotal l s m := by
  rw [groupTotal, groupTotal, List.filter_filter]
  have hf : (l.filter (fun a => decide (a.staff = s ∧ a.ym = m) && decide (a.ym ∈ sel)))
      = l.filter (fun r => decide (r.staff = s ∧ r.ym = m)) := by
    apply List.filter_congr
    intro x hx
    by_cases h : x.staff = s ∧ x.ym = m
    · simp [h.1, h.2, hm]
    · simp only [decide_eq_false h, Bool.false_and]
  rw [hf]

/-- The number of pivoted rows for a staff name: one if the staff has an
aggregated row in a selected month, zero otherwise. -/
theorem pivot_count (mh : List NRow) (sel0 : List String) (s : String) :
    (pivotTable mh sel0).countP (fun p => p.staff == s)
      = if (∃ x ∈ mh, x.staff = s ∧ x.ym ∈ sel0) then 1 else 0 := by
  have h1 : (pivotTable mh sel0).countP (fun p => p.staff == s)
      = (((mh.filter (fun r => decide (r.ym ∈ sel0))).map NRow.staff).dedup).countP
          (fun t => t == s) := by
    simp only [pivotTable]
    rw [List.countP_map]
    rfl
  rw [h1, countP_str_nodup (List.nodup_dedup _) s]
  have h2 : s ∈ ((mh.filter (fun r => decide (r.ym ∈ sel0))).map NRow.staff).dedup
      ↔ ∃ x ∈ mh, x.staff = s ∧ x.ym ∈ sel0 := by
    rw [List.mem_dedup, List.mem_map]
    constructor
    · rintro ⟨x, hxF, rfl⟩
      have h3 := List.mem_filter.mp hxF
      exact ⟨x, h3.1, rfl, by simpa using h3.2⟩
    · rintro ⟨x, hxmh, hxs, hxm⟩
      exact ⟨x, List.mem_filter.mpr ⟨hxmh, by simpa using hxm⟩, hxs⟩
  rw [if_congr h2 rfl rfl]

/-- A staff/month pair occurs in the aggregated table exactly when it occurs
in the normalized table. -/
theorem exists_mh_iff {nr : List NRow} {s : String} {sel0 sel1 : List String}
    (hmem : ∀ a : String, a ∈ sel0 ↔ a ∈ sel1) :
    (∃ x ∈ monthlyHours nr, x.staff = s ∧ x.ym ∈ sel0)
      ↔ (∃ r ∈ nr, r.staff = s ∧ r.ym ∈ sel1) := by
  constructor
  · rintro ⟨x, hx, hxs, hxm⟩
    rcases mem_monthlyHours.mp hx with ⟨r, hr, rfl⟩
    exact ⟨r, hr, hxs, (hmem _).mp hxm⟩
  · rintro ⟨r, hr, hrs, hrm⟩
    exact ⟨⟨r.staff, r.ym, groupTotal nr r.staff r.ym⟩,
      mem_monthlyHours.mpr ⟨r, hr, rfl⟩, hrs, (hmem _).mpr hrm⟩

/-!
## Claims
-/

/-- C1: a pivoted row is labelled PASS iff the value in every selected month
column strictly exceeds 130; it is labelled NO PASS iff some column value is
at most 130, and in particular a value equal to 130 forces NO PASS. -/
theorem classifier_pass_iff (mh : List NRow) (sel : List String) (p : PivotRow)
    (hp : p ∈ pivotTable mh sel) :
    (p ∈ passTable mh sel ↔ ∀ v ∈ p.vals, (130 : ℚ) < v)
    ∧ (p ∈ noPassTable mh sel ↔ ∃ v ∈ p.vals, v ≤ 130)
    ∧ ((∃ v ∈ p.vals, v = 130) → p ∈ noPassTable mh sel) := by
  have hpass : passRow p = true ↔ ∀ v ∈ p.vals, (130 : ℚ) < v := by
    simp [passRow, List.all_eq_true]
  have hno : p ∈ noPassTable mh sel ↔ ∃ v ∈ p.vals, v ≤ 130 := by
    rw [mem_noPassTable]
    simp only [hp, true_and]
    rw [← Bool.not_eq_true, hpass]
    push_neg
    simp only [not_lt]
  refine ⟨by rw [mem_passTable]; simp [hp, hpass], hno, ?_⟩
  rintro ⟨v, hv, hveq⟩
  exact hno.mpr ⟨v, hv, le_of_eq hveq⟩

/-- C1 witness: a staff member with monthly totals 131, 130, 200 lands in
the NO PASS table (the 130 column fails the strict comparison). -/
theorem classifier_pass_iff_witness :
    (⟨"A", [131, 130, 200]⟩ : PivotRow) ∈
      noPassTable [⟨"A", "2025-01", 131⟩, ⟨"A", "2025-02", 130⟩, ⟨"A", "2025-03", 200⟩]
        ["2025-01", "2025-02", "2025-03"] :=
  (classifier_pass_iff
      [⟨"A", "2025-01", 131⟩, ⟨"A", "2025-02", 130⟩, ⟨"A", "2025-03", 200⟩]
      ["2025-01", "2025-02", "2025-03"] ⟨"A", [131, 130, 200]⟩
      (by simp [pivotTable, groupTotal])).2.2 ⟨130, by decide, rfl⟩

/-- C2: in the pivoted output, a staff name appears exactly once iff it has
a qualifying row in one of the selected months (so never twice, and staff
with no such row are absent); a cell whose staff has no qualifying hours in
that column's month is 0; and the month columns are the 3 selected months in
ascending order. -/
theorem pivot_completeness (rows : List Row) (sel : List String)
    (hlen : sel.length = 3) (hnd : sel.Nodup) :
    (∀ s : String,
      ((∃ r ∈ normalize rows, r.staff = s ∧ r.ym ∈ sel) ↔
        (pivotTable (monthlyHours (normalize rows)) (sortStr sel)).countP
          (fun p => p.staff == s) = 1))
    ∧ (∀ p ∈ pivotTable (monthlyHours (normalize rows)) (sortStr sel),
        ∀ x ∈ (sortStr sel).zip p.vals,
          (¬ ∃ r ∈ normalize rows, r.staff = p.staff ∧ r.ym = x.1) → x.2 = 0)
    ∧ (sortStr sel).Perm sel ∧ List.Sorted (· ≤ ·) (sortStr sel) := by
  refine ⟨?_, ?_, sortStr_perm sel, sortStr_sorted sel⟩
  · intro s
    rw [pivot_count (monthlyHours (normalize rows)) (sortStr sel) s]
    have hiff : (∃ x ∈ monthlyHours (normalize rows), x.staff = s ∧ x.ym ∈ sortStr sel)
        ↔ (∃ r ∈ normalize rows, r.staff = s ∧ r.ym ∈ sel) :=
      exists_mh_iff (fun a => (sortStr_perm sel).mem_iff)
    by_cases hC : ∃ x ∈ monthlyHours (normalize rows), x.staff = s ∧ x.ym ∈ sortStr sel
    · rw [if_pos hC]
      exact ⟨fun _ => rfl, fun _ => hiff.mp hC⟩
    · rw [if_neg hC]
      constructor
      · intro hex
        exact absurd (hiff.mpr hex) hC
      · intro h01
        exact absurd h01 (by norm_num)
  · intro p hp x hx hno
    simp only [pivotTable] at hp
    rcases List.mem_map.mp hp with ⟨t, ht, rfl⟩
    rw [zip_map_self] at hx
    rcases List.mem_map.mp hx with ⟨m, hm, rfl⟩
    apply groupTotal_eq_zero
    intro r hrF
    rintro ⟨hrs, hrm⟩
    rcases mem_monthlyHours.mp (List.mem_filter.mp hrF).1 with ⟨r0, hr0, hrr0⟩
    subst hrr0
    exact hno ⟨r0, hr0, hrs, hrm⟩

/-- C2 witness: one staff member with hours only in the first selected month
appears exactly once in the pivot. -/
theorem pivot_completeness_witness :
    (pivotTable (monthlyHours (normalize
        [⟨"A", some ⟨2025, 1⟩, some 520, .str "yes", .str "Direct Service BT"⟩]))
        (sortStr ["2025-01", "2025-02", "2025-03"])).countP
      (fun p => p.staff == "A") = 1 := by
  have h := (pivot_completeness
    [⟨"A", some ⟨2025, 1⟩, some 520, .str "yes", .str "Direct Service BT"⟩]
    ["2025-01", "2025-02", "2025-03"] (by decide) (by decide)).1 "A"
  apply h.mp
  refine ⟨⟨"A", monthKey 2025 1, rowHours
      ⟨"A", some ⟨2025, 1⟩, some 520, .str "yes", .str "Direct Service BT"⟩⟩, ?_, rfl, ?_⟩
  · rw [normalize_cons]
    simp [show strLower (strTrim (cellToStr (Cell.str "yes"))) = "yes" from rfl,
      show strTrim (cellToStr (Cell.str "Direct Service BT")) = "Direct Service BT" from rfl]
  · show monthKey 2025 1 ∈ _
    rw [show monthKey 2025 1 = "2025-01" from rfl]
    decide

/-- C3: conservation of hours — the cell values of the PASS table plus those
of the NO PASS table sum to the total resolved hours of the qualifying rows
whose month key is one of the selected months. -/
theorem hours_conservation (rows : List Row) (sel : List String)
    (hlen : sel.length = 3) (hnd : sel.Nodup) :
    ((passTable (monthlyHours (normalize rows)) (sortStr sel)).map
        (fun p => p.vals.sum)).sum
      + ((noPassTable (monthlyHours (normalize rows)) (sortStr sel)).map
        (fun p => p.vals.sum)).sum
      = (((normalize rows).filter (fun r => decide (r.ym ∈ sel))).map NRow.hours).sum := by
  rw [passTable, noPassTable, sum_map_filter_not]
  have hA : ((pivotTable (monthlyHours (normalize rows)) (sortStr sel)).map
        (fun p => p.vals.sum)).sum
      = ((((monthlyHours (normalize rows)).filter
            (fun r => decide (r.ym ∈ sortStr sel))).map NRow.staff).dedup.map
          (fun s => ((sortStr sel).map (fun m => groupTotal
            ((monthlyHours (normalize rows)).filter
              (fun r => decide (r.ym ∈ sortStr sel))) s m)).sum)).sum := by
    simp only [pivotTable, List.map_map]
    rfl
  rw [hA]
  have hcov1 : ∀ r ∈ (monthlyHours (normalize rows)).filter
      (fun r => decide (r.ym ∈ sortStr sel)),
      r.staff ∈ (((monthlyHours (normalize rows)).filter
        (fun r => decide (r.ym ∈ sortStr sel))).map NRow.staff).dedup
        ∧ r.ym ∈ sortStr sel := by
    intro r hr
    exact ⟨List.mem_dedup.mpr (List.mem_map.mpr ⟨r, hr, rfl⟩),
      by simpa using (List.mem_filter.mp hr).2⟩
  rw [sum_groupTotal_grid _ _ _ (List.nodup_dedup _)
    (((sortStr_perm sel).nodup_iff).mpr hnd) hcov1]
  have hC : (monthlyHours (normalize rows)).filter (fun r => decide (r.ym ∈ sortStr sel))
      = ((((normalize rows).map (fun r => (r.staff, r.ym))).dedup).filter
          (fun q => decide (q.2 ∈ sortStr sel))).map
          (fun p => ⟨p.1, p.2, groupTotal (normalize rows) p.1 p.2⟩) := by
    simp only [monthlyHours]
    rw [List.filter_map]
    rfl
  rw [hC, List.map_map]
  have hD : ((((normalize rows).map (fun r => (r.staff, r.ym))).dedup).filter
        (fun q => decide (q.2 ∈ sortStr sel))).map
        (NRow.hours ∘ fun p => (⟨p.1, p.2, groupTotal (normalize rows) p.1 p.2⟩ : NRow))
      = ((((normalize rows).map (fun r => (r.staff, r.ym))).dedup).filter
          (fun q => decide (q.2 ∈ sortStr sel))).map
          (fun p => groupTotal ((normalize rows).filter
            (fun r => decide (r.ym ∈ sortStr sel))) p.1 p.2) := by
    apply List.map_congr_left
    intro q hq
    have hq2 : q.2 ∈ sortStr sel := by simpa using (List.mem_filter.mp hq).2
    show groupTotal (normalize rows) q.1 q.2 = _
    exact (groupTotal_filter (normalize rows) (sortStr sel) q.1 q.2 hq2).symm
  rw [hD]
  have hcov2 : ∀ r ∈ (normalize rows).filter (fun r => decide (r.ym ∈ sortStr sel)),
      (r.staff, r.ym) ∈ (((normalize rows).map (fun r => (r.staff, r.ym))).dedup).filter
        (fun q => decide (q.2 ∈ sortStr sel)) := by
    intro r hr
    have h1 := List.mem_filter.mp hr
    exact List.mem_filter.mpr
      ⟨List.mem_dedup.mpr (List.mem_map.mpr ⟨r, h1.1, rfl⟩), h1.2⟩
  rw [sum_groupTotal_pairs _ _ ((List.nodup_dedup _).filter _) hcov2]
  have hF : (normalize rows).filter (fun r => decide (r.ym ∈ sortStr sel))
      = (normalize rows).filter (fun r => decide (r.ym ∈ sel)) := by
    apply List.filter_congr
    intro x hx
    rw [decide_eq_decide]
    exact (sortStr_perm sel).mem_iff
  rw [hF]

/-- C3 witness: a two-staff, two-month table conserves its 180 total hours
through classification. -/
theorem hours_conservation_witness :
    ((passTable (monthlyHours (normalize
        [⟨"A", some ⟨2025, 1⟩, some 520, .str "yes", .str "Direct Service BT"⟩,
         ⟨"B", some ⟨2025, 2⟩, some 200, .str "yes", .str "Direct Service BT"⟩]))
        (sortStr ["2025-01", "2025-02", "2025-03"])).map (fun p => p.vals.sum)).sum
      + ((noPassTable (monthlyHours (normalize
        [⟨"A", some ⟨2025, 1⟩, some 520, .str "yes", .str "Direct Service BT"⟩,
         ⟨"B", some ⟨2025, 2⟩, some 200, .str "yes", .str "Direct Service BT"⟩]))
        (sortStr ["2025-01", "2025-02", "2025-03"])).map (fun p => p.vals.sum)).sum
      = (((normalize
        [⟨"A", some ⟨2025, 1⟩, some 520, .str "yes", .str "Direct Service BT"⟩,
         ⟨"B", some ⟨2025, 2⟩, some 200, .str "yes", .str "Direct Service BT"⟩]).filter
          (fun r => decide (r.ym ∈ ["2025-01", "2025-02", "2025-03"]))).map NRow.hours).sum :=
  hours_conservation
    [⟨"A", some ⟨2025, 1⟩, some 520, .str "yes", .str "Direct Service BT"⟩,
     ⟨"B", some ⟨2025, 2⟩, some 200, .str "yes", .str "Direct Service BT"⟩]
    ["2025-01", "2025-02", "2025-03"] (by decide) (by decide)

/-- C4: whenever the number of selected months differs from 3 (the schema
being valid), the pipeline rejects with the selection error and produces no
output at all. -/
theorem selection_cardinality_rejects (cols : List String) (rows : List Row)
    (sel : List String) (hcols : ∀ c ∈ requiredCols, c ∈ cols)
    (hlen : sel.length ≠ 3) :
    pipeline cols rows sel = .error .selectionError := by
  simp [pipeline, requiredFilter_nil hcols, hlen]

/-- C4 witness: a two-month selection is rejected. -/
theorem selection_cardinality_rejects_witness :
    pipeline requiredCols [] ["2025-01", "2025-02"] = .error .selectionError :=
  selection_cardinality_rejects requiredCols [] ["2025-01", "2025-02"]
    (fun c hc => hc) (by decide)

/-- C5: the completion filter keeps a row iff its completion field, trimmed
and lowercased, equals "yes"; a row whose completion reads " YES " is kept
and contributes to the normalized table exactly as one reading "yes". -/
theorem completion_filter_spec (rows : List Row) (r : Row) :
    (r ∈ completedFilter rows ↔ r ∈ rows ∧ strLower (strTrim (cellToStr r.completed)) = "yes")
    ∧ (∀ rest : List Row,
        normalize ({ r with completed := .str " YES " } :: rest)
          = normalize ({ r with completed := .str "yes" } :: rest)) := by
  constructor
  · simp [completedFilter, List.mem_filter]
  · intro rest
    rw [normalize_cons, normalize_cons]
    have h1 : strLower (strTrim (cellToStr (Cell.str " YES "))) = "yes" := by decide
    have h2 : strLower (strTrim (cellToStr (Cell.str "yes"))) = "yes" := by decide
    simp only [h1, h2]
    simp [rowHours]

/-- C6: resolved hours are the exact unit count divided by 4; a staff member
with 520 units in a month totals exactly 130 hours, which does not pass the
strict > 130 rule. -/
theorem units_quarter_hours (r : Row) (u : ℚ) (hu : r.units = some u) :
    rowHours r = u / 4
    ∧ groupTotal (normalize
        [⟨"A", some ⟨2025, 1⟩, some 520, .str "yes", .str "Direct Service BT"⟩])
        "A" (monthKey 2025 1) = 130
    ∧ passRow ⟨"A", [130, 131, 131]⟩ = false := by
  refine ⟨by simp [rowHours, hu], ?_, by decide⟩
  rw [show normalize [⟨"A", some ⟨2025, 1⟩, some 520, .str "yes", .str "Direct Service BT"⟩]
        = [⟨"A", monthKey 2025 1,
            rowHours ⟨"A", some ⟨2025, 1⟩, some 520, .str "yes", .str "Direct Service BT"⟩⟩]
      from by
        rw [normalize_cons]
        simp [show strLower (strTrim (cellToStr (Cell.str "yes"))) = "yes" from rfl,
          show strTrim (cellToStr (Cell.str "Direct Service BT")) = "Direct Service BT" from rfl,
          show normalize [] = [] from rfl]]
  simp [groupTotal, rowHours]
  norm_num

/-- C6 witness: the resolved hours of a concrete 520-unit row. -/
theorem units_quarter_hours_witness :
    rowHours ⟨"A", some ⟨2025, 1⟩, some 520, .str "yes", .str "Direct Service BT"⟩
      = 520 / 4 :=
  (units_quarter_hours
    ⟨"A", some ⟨2025, 1⟩, some 520, .str "yes", .str "Direct Service BT"⟩ 520 rfl).1

/-- C7: row-level data problems never abort the pipeline: a row whose date
failed to parse is silently dropped by normalization; a qualifying row whose
quantity failed to parse is kept with 0 resolved hours; and with the schema
and month-count preconditions met the pipeline returns the classified tables
whatever the rows contain. -/
theorem row_quality_tolerance (r : Row) (rest : List Row) :
    (r.date = none → normalize (r :: rest) = normalize rest)
    ∧ (∀ d : Date, r.date = some d → r.units = none →
        strLower (strTrim (cellToStr r.completed)) = "yes" →
        strTrim (cellToStr r.service) = "Direct Service BT" →
        normalize (r :: rest) = ⟨r.staff, monthKey d.year d.month, 0⟩ :: normalize rest)
    ∧ (∀ cols sel, (∀ c ∈ requiredCols, c ∈ cols) → sel.length = 3 →
        pipeline cols (r :: rest) sel =
          .ok (passTable (monthlyHours (normalize (r :: rest))) (sortStr sel),
               noPassTable (monthlyHours (normalize (r :: rest))) (sortStr sel))) := by
  refine ⟨?_, ?_, ?_⟩
  · intro hd
    rw [normalize_cons, hd]
    split <;> rfl
  · intro d hd hu h1 h2
    rw [normalize_cons, hd]
    simp [h1, h2, rowHours, hu]
  · intro cols sel hcols hsel
    simp [pipeline, requiredFilter_nil hcols, hsel]

/-- C7 witness: a bad-date row vanishes, a bad-units row contributes 0 hours,
and the pipeline still returns its tables. -/
theorem row_quality_tolerance_witness :
    normalize [⟨"B", none, some 8, .str "yes", .str "Direct Service BT"⟩] = []
    ∧ normalize [⟨"C", some ⟨2025, 2⟩, none, .str "yes", .str "Direct Service BT"⟩]
        = [⟨"C", monthKey 2025 2, 0⟩]
    ∧ pipeline requiredCols [⟨"B", none, some 8, .str "yes", .str "Direct Service BT"⟩]
        ["2025-01", "2025-02", "2025-03"] =
        .ok (passTable (monthlyHours (normalize
              [⟨"B", none, some 8, .str "yes", .str "Direct Service BT"⟩]))
              (sortStr ["2025-01", "2025-02", "2025-03"]),
             noPassTable (monthlyHours (normalize
              [⟨"B", none, some 8, .str "yes", .str "Direct Service BT"⟩]))
              (sortStr ["2025-01", "2025-02", "2025-03"])) := by
  refine ⟨?_, ?_, ?_⟩
  · exact (row_quality_tolerance
      ⟨"B", none, some 8, .str "yes", .str "Direct Service BT"⟩ []).1 rfl
  · exact (row_quality_tolerance
      ⟨"C", some ⟨2025, 2⟩, none, .str "yes", .str "Direct Service BT"⟩ []).2.1
      ⟨2025, 2⟩ rfl rfl (by decide) (by decide)
  · exact (row_quality_tolerance
      ⟨"B", none, some 8, .str "yes", .str "Direct Service BT"⟩ []).2.2
      requiredCols ["2025-01", "2025-02", "2025-03"] (fun c hc => hc) (by decide)

/-- C8 counterexample: nothing in the code keeps cell values nonnegative — a
qualifying row whose unit count parsed as -4 produces a pivoted cell of -1
hours, refuting "each month-column value is ≥ 0" as stated. -/
theorem pivot_nonneg_cex :
    ∃ p ∈ pivotTable (monthlyHours (normalize
        [⟨"A", some ⟨2025, 1⟩, some (-4), .str "yes", .str "Direct Service BT"⟩]))
        (sortStr ["2025-01", "2025-02", "2025-03"]),
      ∃ v ∈ p.vals, v < 0 := by
  have h1 : normalize [⟨"A", some ⟨2025, 1⟩, some (-4), .str "yes", .str "Direct Service BT"⟩]
      = [⟨"A", "2025-01", -1⟩] := by
    rw [normalize_cons]
    simp [show strLower (strTrim (cellToStr (Cell.str "yes"))) = "yes" from rfl,
      show strTrim (cellToStr (Cell.str "Direct Service BT")) = "Direct Service BT" from rfl,
      show normalize [] = [] from rfl, show monthKey 2025 1 = "2025-01" from rfl]
    norm_num [rowHours]
  rw [h1]
  have h2 : monthlyHours [⟨"A", "2025-01", -1⟩] = [⟨"A", "2025-01", -1⟩] := by
    simp [monthlyHours, groupTotal]
  have h3 : sortStr ["2025-01", "2025-02", "2025-03"] = ["2025-01", "2025-02", "2025-03"] := by
    decide
  rw [h2, h3]
  refine ⟨⟨"A", [-1, 0, 0]⟩, ?_, -1, by norm_num, by norm_num⟩
  simp [pivotTable, groupTotal]

/-- C8 (amended): every pivoted row has exactly 3 month columns; and provided
every parsed unit count in the input table is nonnegative, every month-column
value is ≥ 0. -/
theorem pivot_shape (rows : List Row) (sel : List String) (hlen : sel.length = 3)
    (hpos : ∀ r ∈ rows, ∀ u, r.units = some u → 0 ≤ u) :
    ∀ p ∈ pivotTable (monthlyHours (normalize rows)) (sortStr sel),
      p.vals.length = 3 ∧ ∀ v ∈ p.vals, 0 ≤ v := by
  have hnr : ∀ x ∈ normalize rows, 0 ≤ x.hours := by
    intro x hx
    rcases normalize_hours_src hx with ⟨r, hr, hxr⟩
    rw [hxr]
    exact rowHours_nonneg (hpos r hr)
  intro p hp
  rw [pivotTable] at hp
  rcases List.mem_map.mp hp with ⟨s, hs, rfl⟩
  constructor
  · rw [List.length_map, sortStr, (List.perm_insertionSort sle sel).length_eq, hlen]
  · intro v hv
    rcases List.mem_map.mp hv with ⟨m, hm, rfl⟩
    apply groupTotal_nonneg
    intro x hx
    exact monthlyHours_nonneg hnr x (List.mem_filter.mp hx).1

/-- C8 witness: a nonnegative concrete table meets the amended claim at its
one pivoted row. -/
theorem pivot_shape_witness :
    (PivotRow.mk "A" [130, 0, 0]).vals.length = 3 ∧ (0 : ℚ) ≤ 130 := by
  have h1 : normalize [⟨"A", some ⟨2025, 1⟩, some 520, .str "yes", .str "Direct Service BT"⟩]
      = [⟨"A", "2025-01", 130⟩] := by
    rw [normalize_cons]
    simp [show strLower (strTrim (cellToStr (Cell.str "yes"))) = "yes" from rfl,
      show strTrim (cellToStr (Cell.str "Direct Service BT")) = "Direct Service BT" from rfl,
      show normalize [] = [] from rfl, show monthKey 2025 1 = "2025-01" from rfl]
    norm_num [rowHours]
  have h2 : monthlyHours [(⟨"A", "2025-01", 130⟩ : NRow)] = [⟨"A", "2025-01", 130⟩] := by
    simp [monthlyHours, groupTotal]
  have h3 : sortStr ["2025-01", "2025-02", "2025-03"] = ["2025-01", "2025-02", "2025-03"] := by
    decide
  have hmem : (PivotRow.mk "A" [130, 0, 0]) ∈ pivotTable (monthlyHours (normalize
      [⟨"A", some ⟨2025, 1⟩, some 520, .str "yes", .str "Direct Service BT"⟩]))
      (sortStr ["2025-01", "2025-02", "2025-03"]) := by
    rw [h1, h2, h3]
    simp [pivotTable, groupTotal]
  have h := pivot_shape
    [⟨"A", some ⟨2025, 1⟩, some 520, .str "yes", .str "Direct Service BT"⟩]
    ["2025-01", "2025-02", "2025-03"] (by decide)
    (by
      intro r hr u hu
      rcases List.mem_singleton.mp hr with rfl
      simp only [Option.some.injEq] at hu
      rw [← hu]
      norm_num)
    (PivotRow.mk "A" [130, 0, 0]) hmem
  exact ⟨h.1, h.2 130 (by norm_num)⟩

/-- Lexicographic comparison of digit vectors matches comparison of the
numbers they denote. -/
theorem digits_lex_iff
    (y1 m1 y2 m2 a3 a2 a1 a0 c3 c2 c1 c0 b1 b0 d1 d0 : Nat)
    (ey1 : y1 = 1000 * a3 + 100 * a2 + 10 * a1 + a0)
    (ey2 : y2 = 1000 * c3 + 100 * c2 + 10 * c1 + c0)
    (em1 : m1 = 10 * b1 + b0)
    (em2 : m2 = 10 * d1 + d0)
    (ha2 : a2 < 10) (ha1 : a1 < 10) (ha0 : a0 < 10)
    (hc2 : c2 < 10) (hc1 : c1 < 10) (hc0 : c0 < 10)
    (hb0 : b0 < 10) (hd0 : d0 < 10) :
    (a3 < c3 ∨ a3 = c3 ∧ (a2 < c2 ∨ a2 = c2 ∧ (a1 < c1 ∨ a1 = c1 ∧ (a0 < c0 ∨ a0 = c0 ∧
      (b1 < d1 ∨ b1 = d1 ∧ (b0 < d0 ∨ b0 = d0 ∧ False)))))) ↔
    (y1 < y2 ∨ y1 = y2 ∧ m1 < m2) := by
  constructor
  · rintro (h | ⟨h3, h | ⟨h2, h | ⟨h1, h | ⟨h0, h | ⟨hb, h | ⟨hb0e, hF⟩⟩⟩⟩⟩⟩)
    · left; omega
    · left; omega
    · left; omega
    · left; omega
    · right; omega
    · right; omega
    · exact absurd hF not_false
  · intro h
    rcases lt_trichotomy a3 c3 with h3 | h3 | h3
    · exact .inl h3
    · right
      refine ⟨h3, ?_⟩
      rcases lt_trichotomy a2 c2 with h2 | h2 | h2
      · exact .inl h2
      · right
        refine ⟨h2, ?_⟩
        rcases lt_trichotomy a1 c1 with h1 | h1 | h1
        · exact .inl h1
        · right
          refine ⟨h1, ?_⟩
          rcases lt_trichotomy a0 c0 with h0 | h0 | h0
          · exact .inl h0
          · right
            refine ⟨h0, ?_⟩
            rcases lt_trichotomy b1 d1 with hb | hb | hb
            · exact .inl hb
            · right
              exact ⟨hb, .inl (by omega)⟩
            · exfalso; omega
          · exfalso; omega
        · exfalso; omega
      · exfalso; omega
    · exfalso; omega

/-- C9: the month key of a parsed date is the 7-character string
"YYYY-MM" (four year digits, a dash, a zero-padded two-digit month); two
dates get the same key iff they share calendar year and month; and the
lexicographic string order on keys coincides with chronological order. -/
theorem monthKey_spec (y1 m1 y2 m2 : Nat) (hy1 : y1 ≤ 9999) (hy2 : y2 ≤ 9999)
    (hm1 : 1 ≤ m1 ∧ m1 ≤ 12) (hm2 : 1 ≤ m2 ∧ m2 ≤ 12) :
    (monthKey y1 m1).data = pad4 y1 ++ '-' :: pad2 m1
    ∧ (monthKey y1 m1).length = 7
    ∧ (monthKey y1 m1 = monthKey y2 m2 ↔ y1 = y2 ∧ m1 = m2)
    ∧ (monthKey y1 m1 < monthKey y2 m2 ↔ y1 < y2 ∨ (y1 = y2 ∧ m1 < m2)) := by
  obtain ⟨hm1l, hm1r⟩ := hm1
  obtain ⟨hm2l, hm2r⟩ := hm2
  refine ⟨rfl, rfl, ?_, ?_⟩
  · simp only [monthKey, String.ext_iff]
    simp only [pad4, pad2, List.cons_append, List.nil_append, List.cons.injEq,
      dChar_eq_iff, and_true, true_and]
    omega
  · rw [← strLt_iff, strLt]
    show charListLt (pad4 y1 ++ '-' :: pad2 m1) (pad4 y2 ++ '-' :: pad2 m2) = true ↔ _
    simp only [pad4, pad2, List.cons_append, List.nil_append]
    simp only [charListLt_cons, dChar_lt_iff, dChar_eq_iff, lt_self_iff_false,
      false_or, true_and, and_true, eq_self_iff_true]
    simp only [show charListLt [] [] = true ↔ False by rw [charListLt]; simp]
    exact digits_lex_iff y1 m1 y2 m2
      (y1 / 1000 % 10) (y1 / 100 % 10) (y1 / 10 % 10) (y1 % 10)
      (y2 / 1000 % 10) (y2 / 100 % 10) (y2 / 10 % 10) (y2 % 10)
      (m1 / 10 % 10) (m1 % 10) (m2 / 10 % 10) (m2 % 10)
      (by omega) (by omega) (by omega) (by omega)
      (by omega) (by omega) (by omega)
      (by omega) (by omega) (by omega)
      (by omega) (by omega)

/-- C9 witness: concrete keys for September and November 2025. -/
theorem monthKey_spec_witness :
    ((monthKey 2025 9 = monthKey 2025 11) ↔ (2025 = 2025 ∧ 9 = 11))
    ∧ ((monthKey 2025 9 < monthKey 2025 11) ↔ (2025 < 2025 ∨ (2025 = 2025 ∧ 9 < 11))) :=
  ⟨(monthKey_spec 2025 9 2025 11 (by norm_num) (by norm_num)
      (by norm_num) (by norm_num)).2.2.1,
   (monthKey_spec 2025 9 2025 11 (by norm_num) (by norm_num)
      (by norm_num) (by norm_num)).2.2.2⟩

/-- C10: once the five required columns are present, no row content can make
the pipeline fail: for every input table and every 3-month selection it
returns the classified pair of tables; moreover a NaN (missing) completion
cell is coerced to the string "nan" and such a row is simply filtered out. -/
theorem pipeline_totality (cols : List String) (rows : List Row) (sel : List String)
    (hcols : ∀ c ∈ requiredCols, c ∈ cols) (hsel : sel.length = 3) :
    (pipeline cols rows sel =
      .ok (passTable (monthlyHours (normalize rows)) (sortStr sel),
           noPassTable (monthlyHours (normalize rows)) (sortStr sel)))
    ∧ (∀ t : List Row, ∀ r : Row, r.completed = .nan →
        cellToStr r.completed = "nan" ∧ r ∉ completedFilter t) := by
  constructor
  · simp [pipeline, requiredFilter_nil hcols, hsel]
  · intro t r hr
    refine ⟨by rw [hr]; rfl, ?_⟩
    intro hmem
    rw [completedFilter, List.mem_filter, hr] at hmem
    exact absurd hmem.2 (by decide)


/-- C10 witness: a concrete one-NaN-row table with a 3-month selection. -/
theorem pipeline_totality_witness :
    (pipeline requiredCols [⟨"A", some ⟨2025, 1⟩, some 4, .nan, .str "Direct Service BT"⟩]
        ["2025-01", "2025-02", "2025-03"] =
      .ok (passTable (monthlyHours (normalize
            [⟨"A", some ⟨2025, 1⟩, some 4, .nan, .str "Direct Service BT"⟩]))
            (sortStr ["2025-01", "2025-02", "2025-03"]),
           noPassTable (monthlyHours (normalize
            [⟨"A", some ⟨2025, 1⟩, some 4, .nan, .str "Direct Service BT"⟩]))
            (sortStr ["2025-01", "2025-02", "2025-03"])))
    ∧ (cellToStr (Cell.nan) = "nan"
        ∧ (⟨"A", some ⟨2025, 1⟩, some 4, .nan, .str "Direct Service BT"⟩ : Row)
            ∉ completedFilter []) := by
  have h := pipeline_totality requiredCols
    [⟨"A", some ⟨2025, 1⟩, some 4, .nan, .str "Direct Service BT"⟩]
    ["2025-01", "2025-02", "2025-03"] (fun c hc => hc) (by decide)
  exact ⟨h.1, h.2 [] ⟨"A", some ⟨2025, 1⟩, some 4, .nan, .str "Direct Service BT"⟩ rfl⟩

end BTFT
